import Mathlib

/-!
Verification of the scheduled-send deduplication and job-registration logic
of SamuilBot (src/bot.py).

The embedding models, faithfully to the source:
* `_normalize_text_for_dedupe` (bot.py 495-497),
* the module-level dicts `_last_scheduled_sent_at` / `_last_scheduled_texts`
  (bot.py 66-68) as association lists, so that the set of keys present is
  part of the state — in particular the observable key insertion performed
  by reading a `defaultdict`,
* `_should_dedupe_scheduled_send` (bot.py 500-531) and
  `_record_scheduled_send` (bot.py 534-538),
* the common shape of the daily job callbacks `good_morning_job` /
  `today_events_job` / `evening_summary_job` (marker check, optional
  prompt-history read, generation, dedupe gate, transport send, record),
* `JobManager.setup_jobs` (bot.py 1069-1137).

Timestamps are integral seconds; `(now - last).total_seconds()` becomes an
`Int` difference.  Python's float comparison `similarity > 0.8` on the ratio
`common / max` is encoded as the exact comparison `4 * max < 5 * common`,
which agrees with the float computation at all feasible set sizes.
-/

/-- ASCII whitespace: the characters matched by Python's `str.strip`,
`str.split()` and the regex class `\s` for the texts in this development. -/
def pyIsSpace (c : Char) : Bool :=
  c = ' ' || c = '\t' || c = '\n' || c = '\r' || c = '\x0b' || c = '\x0c'

/-- Python `str.lower` restricted to the alphabets appearing in the bot's
texts: ASCII `A`-`Z` and Cyrillic `А`-`Я` are shifted by 32 code points,
`Ё` maps to `ё`; everything else is fixed. -/
def pyToLower (c : Char) : Char :=
  if 'A' ≤ c ∧ c ≤ 'Z' then Char.ofNat (c.toNat + 32)
  else if 'А' ≤ c ∧ c ≤ 'Я' then Char.ofNat (c.toNat + 32)
  else if c = 'Ё' then 'ё'
  else c

/-- Python `str.split()` with no arguments: split on runs of whitespace,
dropping empty pieces.  The accumulator holds the current word reversed. -/
def pyWordsAux : List Char → List Char → List String
  | [], acc => if acc = [] then [] else [⟨acc.reverse⟩]
  | c :: rest, acc =>
    if pyIsSpace c then
      if acc = [] then pyWordsAux rest []
      else ⟨acc.reverse⟩ :: pyWordsAux rest []
    else pyWordsAux rest (c :: acc)

def pySplit (s : String) : List String :=
  pyWordsAux s.data []

/-- Join a word list with single spaces (Python `" ".join(ws)`). -/
def joinWords : List String → String
  | [] => ""
  | [w] => w
  | w :: ws => w ++ " " ++ joinWords ws

/-- bot.py 495-497: `re.sub(r"\s+", " ", (s or "").strip().lower())`.
Stripping and collapsing internal whitespace runs to single spaces is the
same as joining the whitespace-separated words with single spaces, and
lowercasing commutes with splitting on whitespace. -/
def _normalize_text_for_dedupe (s : String) : String :=
  joinWords (pySplit ⟨s.data.map pyToLower⟩)

/-- Lookup in a Python dict modelled as an association list. -/
def alistGet {α : Type} : List (String × α) → String → Option α
  | [], _ => none
  | (k, v) :: rest, key => if k = key then some v else alistGet rest key

/-- Assignment `d[key] = v`: replace in place, or append a new key. -/
def alistSet {α : Type} : List (String × α) → String → α → List (String × α)
  | [], key, v => [(key, v)]
  | (k, w) :: rest, key, v =>
    if k = key then (k, v) :: rest else (k, w) :: alistSet rest key v

/-- The module-level dedupe state (bot.py 66-68):
`_last_scheduled_sent_at : job_name -> last sent timestamp` (the same dict
also stores the per-day markers `"<job>_sent_<date>"`), and
`_last_scheduled_texts : job_name -> deque of the last 5 sent texts`. -/
structure DedupState where
  lastSentAt : List (String × Int)
  lastTexts : List (String × List String)
deriving DecidableEq

def dedupInit : DedupState := ⟨[], []⟩

/-- Reading `_last_scheduled_texts[k]`: a `defaultdict` inserts a missing
key with an empty deque.  Returns the entry and the possibly-extended
table. -/
def ddGetTexts (l : List (String × List String)) (k : String) :
    List String × List (String × List String) :=
  match alistGet l k with
  | some v => (v, l)
  | none => ([], alistSet l k [])

/-- The last five elements of a list (everything when shorter). -/
def last5 (l : List String) : List String := l.drop (l.length - 5)

/-- `deque(maxlen=5).append(x)`: the deque keeps the last 5 appended
values. -/
def dequeAppend (xs : List String) (x : String) : List String :=
  last5 (xs ++ [x])

/-- bot.py 508-513: a prior send exists and
`abs((now - last_at).total_seconds()) < 600`. -/
def _dedupe_cooldown_hit (st : DedupState) (job_name : String) (now : Int) : Bool :=
  match alistGet st.lastSentAt job_name with
  | some last_at => decide ((now - last_at).natAbs < 600)
  | none => false

/-- Body of the history loop of `_should_dedupe_scheduled_send`
(bot.py 515-529): exact match of normalized texts, else, for texts of
normalized length above 20, word-set overlap `common / max > 0.8`.
Python set cardinalities are modelled by `List.dedup` lengths, the
intersection by filtering one deduplicated word list through membership in
the other, and the threshold comparison by `4 * max < 5 * common`. -/
def _dedupe_entry_hit (norm prev : String) : Bool :=
  let prev_norm := _normalize_text_for_dedupe prev
  if norm = prev_norm then true
  else if 20 < norm.length ∧ 20 < prev_norm.length then
    let words_current := (pySplit norm).dedup
    let words_prev := (pySplit prev_norm).dedup
    let common_words := words_current.filter (fun w => decide (w ∈ words_prev))
    decide (4 * max words_current.length words_prev.length < 5 * common_words.length)
  else false

/-- bot.py 500-531.  Besides the boolean verdict the model returns the
resulting state, because the loop header `for prev in
_last_scheduled_texts[job_name]` reads a `defaultdict` and hence inserts
the job key (with an empty deque) when it is absent. -/
def _should_dedupe_scheduled_send (st : DedupState) (job_name : String)
    (now : Int) (text : String) : Bool × DedupState :=
  let norm := _normalize_text_for_dedupe text
  if norm = "" then (false, st)
  else if _dedupe_cooldown_hit st job_name now then (true, st)
  else
    ((ddGetTexts st.lastTexts job_name).1.any (fun prev => _dedupe_entry_hit norm prev),
     { st with lastTexts := (ddGetTexts st.lastTexts job_name).2 })

/-- bot.py 534-538: set the last-sent timestamp and append the text to the
job's bounded deque (reading the `defaultdict` inserts a missing key). -/
def _record_scheduled_send (st : DedupState) (job_name : String)
    (now : Int) (text : String) : DedupState :=
  { lastSentAt := alistSet st.lastSentAt job_name now
    lastTexts := alistSet (ddGetTexts st.lastTexts job_name).2 job_name
      (dequeAppend (ddGetTexts st.lastTexts job_name).1 text) }

/-- Final phase of a daily job callback (bot.py 958-971): apply the dedupe
gate, then attempt the transport send; only on success record the send and
set the daily marker `markerKey`; on a thrown send the exception handler
just logs, so the state is whatever it was after the gate. -/
def daily_job_send_phase (job_name markerKey : String) (st : DedupState)
    (now : Int) (text : String) (sendOk : Bool) : DedupState × Bool :=
  let r := _should_dedupe_scheduled_send st job_name now text
  if r.1 then (r.2, false)
  else if sendOk then
    let st3 := _record_scheduled_send r.2 job_name now text
    ({ st3 with lastSentAt := alistSet st3.lastSentAt markerKey now }, true)
  else (r.2, false)

/-- Common shape of the daily job callbacks (bot.py 909-971, 409-445,
974-1056): skip if the marker `markerBase ++ today` is already a key of
`_last_scheduled_sent_at`; `good_morning_job` and `evening_summary_job`
additionally read `_last_scheduled_texts[job_name]` while building the
prompt (`readsRecent`); skip on generation failure (`gen = none`);
otherwise run the send phase.  Returns the new state and whether a message
was sent. -/
def daily_job_step (job_name markerBase : String) (readsRecent : Bool)
    (st : DedupState) (today : String) (now : Int)
    (gen : Option String) (sendOk : Bool) : DedupState × Bool :=
  let markerKey := markerBase ++ today
  if (alistGet st.lastSentAt markerKey).isSome then (st, false)
  else
    let st1 := if readsRecent then
        { st with lastTexts := (ddGetTexts st.lastTexts job_name).2 }
      else st
    match gen with
    | none => (st1, false)
    | some text => daily_job_send_phase job_name markerKey st1 now text sendOk

def good_morning_job_step :
    DedupState → String → Int → Option String → Bool → DedupState × Bool :=
  daily_job_step "good_morning_job" "good_morning_sent_" true

def today_events_job_step :
    DedupState → String → Int → Option String → Bool → DedupState × Bool :=
  daily_job_step "today_events_job" "today_events_sent_" false

def evening_summary_job_step :
    DedupState → String → Int → Option String → Bool → DedupState × Bool :=
  daily_job_step "evening_summary_job" "evening_summary_sent_" true

/-- An entry of the telegram job queue: the callback it runs and the timer
name it was registered under. -/
structure TimerJob where
  callback : String
  name : String
deriving DecidableEq

structure JobQueue where
  jobs : List TimerJob
deriving DecidableEq

/-- bot.py 1061-1067: the `JobManager` fields. -/
structure JobManager where
  jobs_setup : Bool
  setup_time : Option Int
  job_names : List String
deriving DecidableEq

def jobManagerInit : JobManager := ⟨false, none, []⟩

def samuil_callbacks : List String :=
  ["good_morning_job", "evening_summary_job", "today_events_job"]

/-- bot.py 1069-1137, `JobManager.setup_jobs`: return unchanged when the
`jobs_setup` flag is set; otherwise remove every queued job whose callback
is one of the three bot callbacks, add the three daily jobs with
timestamp-suffixed names, set the flag, and clear both dedupe dicts. -/
def setup_jobs (mgr : JobManager) (queue : JobQueue) (dedup : DedupState)
    (now : Int) : JobManager × JobQueue × DedupState :=
  if mgr.jobs_setup then (mgr, queue, dedup)
  else
    let remaining := queue.jobs.filter (fun j => decide (j.callback ∉ samuil_callbacks))
    let morning : TimerJob := ⟨"good_morning_job", "samuil_good_morning_" ++ toString now⟩
    let todayJ : TimerJob := ⟨"today_events_job", "samuil_today_events_" ++ toString now⟩
    let evening : TimerJob := ⟨"evening_summary_job", "samuil_evening_summary_" ++ toString now⟩
    ({ jobs_setup := true
       setup_time := some now
       job_names := [morning.name, todayJ.name, evening.name] },
     ⟨remaining ++ [morning, todayJ, evening]⟩,
     dedupInit)

/-- An operation against the deduplicator state. -/
inductive DedupOp where
  | record (job : String) (now : Int) (text : String)
  | query (job : String) (now : Int) (text : String)
deriving DecidableEq

def applyOp (st : DedupState) : DedupOp → DedupState
  | .record j t x => _record_scheduled_send st j t x
  | .query j t x => (_should_dedupe_scheduled_send st j t x).2

def runOps (ops : List DedupOp) : DedupState := ops.foldl applyOp dedupInit

/-- The history a job observes: the deque stored for it, an absent key
reading as the empty history. -/
def histContents (st : DedupState) (k : String) : List String :=
  (alistGet st.lastTexts k).getD []

/-- Every stored history deque holds at most 5 entries. -/
def histBounded (st : DedupState) : Prop :=
  ∀ k h, alistGet st.lastTexts k = some h → h.length ≤ 5

/-! ### Association-list lemmas -/

theorem alistGet_alistSet_self {α : Type} (l : List (String × α)) (k : String) (v : α) :
    alistGet (alistSet l k v) k = some v := by
  induction l with
  | nil => simp [alistGet, alistSet]
  | cons p rest ih =>
    obtain ⟨k1, v1⟩ := p
    by_cases h : k1 = k
    · simp [alistGet, alistSet, h]
    · simp [alistGet, alistSet, h, ih]

theorem alistGet_alistSet_ne {α : Type} (l : List (String × α)) (k key : String) (v : α)
    (h : key ≠ k) : alistGet (alistSet l key v) k = alistGet l k := by
  induction l with
  | nil => simp [alistGet, alistSet, h]
  | cons p rest ih =>
    obtain ⟨k1, v1⟩ := p
    by_cases h1 : k1 = key
    · subst h1
      simp [alistGet, alistSet, h]
    · by_cases h2 : k1 = k
      · simp [alistGet, alistSet, h1, h2, Ne.symm h]
      · simp [alistGet, alistSet, h1, h2, ih]

theorem alistGet_alistSet_isSome {α : Type} (l : List (String × α)) (k key : String) (v : α)
    (h : (alistGet l k).isSome = true) : (alistGet (alistSet l key v) k).isSome = true := by
  by_cases hk : key = k
  · subst hk
    rw [alistGet_alistSet_self]
    rfl
  · rw [alistGet_alistSet_ne l k key v hk]
    exact h

/-! ### defaultdict-read lemmas -/

theorem ddGetTexts_fst (l : List (String × List String)) (k : String) :
    (ddGetTexts l k).1 = (alistGet l k).getD [] := by
  unfold ddGetTexts
  cases alistGet l k <;> simp

theorem ddGetTexts_contents (l : List (String × List String)) (j k : String) :
    (alistGet (ddGetTexts l j).2 k).getD [] = (alistGet l k).getD [] := by
  cases hj : alistGet l j with
  | some v => simp [ddGetTexts, hj]
  | none =>
    by_cases hk : j = k
    · subst hk
      simp [ddGetTexts, hj, alistGet_alistSet_self]
    · simp [ddGetTexts, hj, alistGet_alistSet_ne _ _ _ _ hk]

theorem ddGetTexts_bound (l : List (String × List String)) (j : String)
    (hb : ∀ k h, alistGet l k = some h → h.length ≤ 5) :
    ∀ k h, alistGet (ddGetTexts l j).2 k = some h → h.length ≤ 5 := by
  intro k h
  cases hj : alistGet l j with
  | some v =>
    simp only [ddGetTexts, hj]
    exact hb k h
  | none =>
    by_cases hk : j = k
    · subst hk
      simp only [ddGetTexts, hj, alistGet_alistSet_self]
      intro heq
      injection heq with heq2
      subst heq2
      simp
    · simp only [ddGetTexts, hj, alistGet_alistSet_ne _ _ _ _ hk]
      exact hb k h

/-! ### Deque lemmas -/

theorem dequeAppend_length_le (xs : List String) (x : String) :
    (dequeAppend xs x).length ≤ 5 := by
  unfold dequeAppend last5
  rw [List.length_drop]
  omega

theorem self_mem_dequeAppend (xs : List String) (x : String) : x ∈ dequeAppend xs x := by
  unfold dequeAppend last5
  rw [List.drop_append_eq_append_drop]
  have h0 : (xs ++ [x]).length - 5 - xs.length = 0 := by
    rw [List.length_append]
    simp
  rw [h0]
  exact List.mem_append_right _ (by simp)

theorem last5_append_of_le (l m : List String) (h : 5 ≤ m.length) :
    last5 (l ++ m) = last5 m := by
  unfold last5
  rw [List.length_append, List.drop_append_eq_append_drop]
  have h1 : l.drop (l.length + m.length - 5) = [] :=
    List.drop_eq_nil_of_le (by omega)
  have h2 : l.length + m.length - 5 - l.length = m.length - 5 := by omega
  rw [h1, h2, List.nil_append]

theorem last5_last5_append (l : List String) (x : String) :
    last5 (last5 l ++ [x]) = last5 (l ++ [x]) := by
  rcases le_or_lt l.length 5 with h | h
  · have h0 : l.length - 5 = 0 := by omega
    show last5 (l.drop (l.length - 5) ++ [x]) = _
    rw [h0, List.drop_zero]
  · have hlen : 5 ≤ (l.drop (l.length - 5) ++ [x]).length := by
      rw [List.length_append, List.length_drop]
      simp
      omega
    have key : l.take (l.length - 5) ++ (l.drop (l.length - 5) ++ [x]) = l ++ [x] := by
      rw [← List.append_assoc, List.take_append_drop]
    calc last5 (last5 l ++ [x]) = last5 (l.drop (l.length - 5) ++ [x]) := rfl
      _ = last5 (l.take (l.length - 5) ++ (l.drop (l.length - 5) ++ [x])) :=
            (last5_append_of_le _ _ hlen).symm
      _ = last5 (l ++ [x]) := by rw [key]

theorem dequeAppend_six (h : List String) (t0 t1 t2 t3 t4 t5 : String) :
    dequeAppend (dequeAppend (dequeAppend (dequeAppend (dequeAppend
      (dequeAppend h t0) t1) t2) t3) t4) t5 = [t1, t2, t3, t4, t5] := by
  have e1 : dequeAppend h t0 = last5 (h ++ [t0]) := rfl
  have e2 : dequeAppend (last5 (h ++ [t0])) t1 = last5 (h ++ [t0] ++ [t1]) :=
    last5_last5_append _ t1
  have e3 : dequeAppend (last5 (h ++ [t0] ++ [t1])) t2 = last5 (h ++ [t0] ++ [t1] ++ [t2]) :=
    last5_last5_append _ t2
  have e4 : dequeAppend (last5 (h ++ [t0] ++ [t1] ++ [t2])) t3
      = last5 (h ++ [t0] ++ [t1] ++ [t2] ++ [t3]) :=
    last5_last5_append _ t3
  have e5 : dequeAppend (last5 (h ++ [t0] ++ [t1] ++ [t2] ++ [t3])) t4
      = last5 (h ++ [t0] ++ [t1] ++ [t2] ++ [t3] ++ [t4]) :=
    last5_last5_append _ t4
  have e6 : dequeAppend (last5 (h ++ [t0] ++ [t1] ++ [t2] ++ [t3] ++ [t4])) t5
      = last5 (h ++ [t0] ++ [t1] ++ [t2] ++ [t3] ++ [t4] ++ [t5]) :=
    last5_last5_append _ t5
  rw [e1, e2, e3, e4, e5, e6]
  have hflat : h ++ [t0] ++ [t1] ++ [t2] ++ [t3] ++ [t4] ++ [t5]
      = h ++ [t0, t1, t2, t3, t4, t5] := by simp
  rw [hflat, last5_append_of_le _ _ (by simp)]
  rfl

/-! ### String-append lemmas -/

theorem string_append_left_cancel {s a b : String} (h : s ++ a = s ++ b) : a = b := by
  rcases s with ⟨sd⟩
  rcases a with ⟨ad⟩
  rcases b with ⟨bd⟩
  have hd : sd ++ ad = sd ++ bd := congrArg String.data h
  have hab : ad = bd := List.append_cancel_left hd
  rw [hab]

/-! ### Lemmas about the dedupe check and the send record -/

theorem suppress_snd (st : DedupState) (J : String) (now : Int) (text : String) :
    (_should_dedupe_scheduled_send st J now text).2 = st ∨
    ((alistGet st.lastTexts J = none) ∧
     (_should_dedupe_scheduled_send st J now text).2 =
       { st with lastTexts := alistSet st.lastTexts J [] }) := by
  unfold _should_dedupe_scheduled_send
  by_cases h1 : _normalize_text_for_dedupe text = ""
  · simp [h1]
  · by_cases h2 : _dedupe_cooldown_hit st J now
    · simp [h1, h2]
    · cases hj : alistGet st.lastTexts J with
      | some v => simp [h1, h2, ddGetTexts, hj]
      | none =>
        right
        simp [h1, h2, ddGetTexts, hj]

theorem suppress_snd_lastSentAt (st : DedupState) (J : String) (now : Int) (text : String) :
    (_should_dedupe_scheduled_send st J now text).2.lastSentAt = st.lastSentAt := by
  rcases suppress_snd st J now text with h | ⟨_, h⟩ <;> rw [h]

theorem suppress_snd_contents (st : DedupState) (J : String) (now : Int) (text : String)
    (k : String) :
    histContents (_should_dedupe_scheduled_send st J now text).2 k = histContents st k := by
  rcases suppress_snd st J now text with h | ⟨hj, h⟩ <;> rw [h]
  by_cases hk : J = k
  · subst hk
    simp [histContents, alistGet_alistSet_self, hj]
  · simp [histContents, alistGet_alistSet_ne _ _ _ _ hk]

theorem suppress_bound (st : DedupState) (J : String) (now : Int) (text : String)
    (hb : histBounded st) : histBounded (_should_dedupe_scheduled_send st J now text).2 := by
  rcases suppress_snd st J now text with h | ⟨hj, h⟩ <;> rw [h]
  · exact hb
  · intro k hh
    by_cases hk : J = k
    · subst hk
      rw [alistGet_alistSet_self]
      intro heq
      injection heq with heq2
      subst heq2
      simp
    · rw [alistGet_alistSet_ne _ _ _ _ hk]
      exact hb k hh

theorem cooldown_hit_of_lookup (st : DedupState) (J : String) (now last : Int)
    (hl : alistGet st.lastSentAt J = some last) (h : (now - last).natAbs < 600) :
    _dedupe_cooldown_hit st J now = true := by
  unfold _dedupe_cooldown_hit
  rw [hl]
  simpa using h

theorem suppress_fst_of_cooldown (st : DedupState) (J : String) (now : Int) (text : String)
    (hne : _normalize_text_for_dedupe text ≠ "")
    (hc : _dedupe_cooldown_hit st J now = true) :
    (_should_dedupe_scheduled_send st J now text).1 = true := by
  unfold _should_dedupe_scheduled_send
  simp [hne, hc]

theorem suppress_fst_of_exact (st : DedupState) (J : String) (now : Int) (text prev : String)
    (hne : _normalize_text_for_dedupe text ≠ "")
    (hmem : prev ∈ histContents st J)
    (heq : _normalize_text_for_dedupe text = _normalize_text_for_dedupe prev) :
    (_should_dedupe_scheduled_send st J now text).1 = true := by
  by_cases hc : _dedupe_cooldown_hit st J now
  · exact suppress_fst_of_cooldown st J now text hne hc
  · unfold _should_dedupe_scheduled_send
    simp [hne, hc, ddGetTexts_fst, List.any_eq_true]
    refine ⟨prev, ?_, ?_⟩
    · simpa [histContents] using hmem
    · simp [_dedupe_entry_hit, heq]

theorem record_lastSentAt (st : DedupState) (J : String) (now : Int) (text : String) :
    (_record_scheduled_send st J now text).lastSentAt = alistSet st.lastSentAt J now := rfl

theorem record_histContents_self (st : DedupState) (J : String) (now : Int) (text : String) :
    histContents (_record_scheduled_send st J now text) J
      = dequeAppend (histContents st J) text := by
  unfold _record_scheduled_send histContents
  rw [alistGet_alistSet_self]
  simp [ddGetTexts_fst]

theorem record_histContents_ne (st : DedupState) (J k : String) (now : Int) (text : String)
    (h : J ≠ k) :
    histContents (_record_scheduled_send st J now text) k = histContents st k := by
  unfold _record_scheduled_send histContents
  rw [alistGet_alistSet_ne _ _ _ _ h]
  exact ddGetTexts_contents _ _ _

theorem record_bound (st : DedupState) (J : String) (now : Int) (text : String)
    (hb : histBounded st) : histBounded (_record_scheduled_send st J now text) := by
  intro k h
  unfold _record_scheduled_send
  dsimp only
  by_cases hk : J = k
  · subst hk
    rw [alistGet_alistSet_self]
    intro heq
    injection heq with heq2
    subst heq2
    exact dequeAppend_length_le _ _
  · rw [alistGet_alistSet_ne _ _ _ _ hk]
    exact ddGetTexts_bound _ _ hb k h

/-! ### Trace invariant for the history bound -/

theorem histBounded_init : histBounded dedupInit := by
  intro k h heq
  simp [dedupInit, alistGet] at heq

theorem applyOp_bound (st : DedupState) (op : DedupOp) (hb : histBounded st) :
    histBounded (applyOp st op) := by
  cases op with
  | record j t x => exact record_bound st j t x hb
  | query j t x => exact suppress_bound st j t x hb

theorem runOps_bounded (ops : List DedupOp) : histBounded (runOps ops) := by
  have gen : ∀ (l : List DedupOp) (st : DedupState),
      histBounded st → histBounded (l.foldl applyOp st) := by
    intro l
    induction l with
    | nil => intro st h; exact h
    | cons op rest ih => intro st h; exact ih _ (applyOp_bound st op h)
  exact gen ops dedupInit histBounded_init

/-! ### Lemmas about the daily job shape -/

theorem send_phase_suppressed (jn mk : String) (st : DedupState) (now : Int) (text : String)
    (ok : Bool) (hs : (_should_dedupe_scheduled_send st jn now text).1 = true) :
    daily_job_send_phase jn mk st now text ok
      = ((_should_dedupe_scheduled_send st jn now text).2, false) := by
  unfold daily_job_send_phase
  simp [hs]

theorem send_phase_nosend (jn mk : String) (st : DedupState) (now : Int) (text : String)
    (hs : ¬ (_should_dedupe_scheduled_send st jn now text).1 = true) :
    daily_job_send_phase jn mk st now text false
      = ((_should_dedupe_scheduled_send st jn now text).2, false) := by
  unfold daily_job_send_phase
  simp [hs]

theorem send_phase_sent (jn mk : String) (st : DedupState) (now : Int) (text : String)
    (hs : ¬ (_should_dedupe_scheduled_send st jn now text).1 = true) :
    daily_job_send_phase jn mk st now text true
      = ({ _record_scheduled_send (_should_dedupe_scheduled_send st jn now text).2 jn now text with
            lastSentAt := alistSet
              (_record_scheduled_send (_should_dedupe_scheduled_send st jn now text).2 jn now text).lastSentAt
              mk now }, true) := by
  unfold daily_job_send_phase
  simp [hs]

theorem send_phase_lastSentAt (jn mk : String) (st : DedupState) (now : Int) (text : String)
    (ok : Bool) :
    ((daily_job_send_phase jn mk st now text ok).1.lastSentAt = st.lastSentAt ∧
     (daily_job_send_phase jn mk st now text ok).2 = false) ∨
    ((daily_job_send_phase jn mk st now text ok).1.lastSentAt
        = alistSet (alistSet st.lastSentAt jn now) mk now ∧
     (daily_job_send_phase jn mk st now text ok).2 = true) := by
  by_cases hs : (_should_dedupe_scheduled_send st jn now text).1 = true
  · left
    rw [send_phase_suppressed jn mk st now text ok hs]
    exact ⟨suppress_snd_lastSentAt _ _ _ _, rfl⟩
  · cases ok with
    | false =>
      left
      rw [send_phase_nosend jn mk st now text hs]
      exact ⟨suppress_snd_lastSentAt _ _ _ _, rfl⟩
    | true =>
      right
      rw [send_phase_sent jn mk st now text hs]
      refine ⟨?_, rfl⟩
      dsimp only
      rw [record_lastSentAt, suppress_snd_lastSentAt]

theorem send_phase_fail (jn mk : String) (st : DedupState) (now : Int) (text : String) :
    (daily_job_send_phase jn mk st now text false).2 = false ∧
    (daily_job_send_phase jn mk st now text false).1.lastSentAt = st.lastSentAt ∧
    ∀ k, histContents (daily_job_send_phase jn mk st now text false).1 k = histContents st k := by
  have hred : daily_job_send_phase jn mk st now text false
      = ((_should_dedupe_scheduled_send st jn now text).2, false) := by
    by_cases hs : (_should_dedupe_scheduled_send st jn now text).1 = true
    · exact send_phase_suppressed jn mk st now text false hs
    · exact send_phase_nosend jn mk st now text hs
  rw [hred]
  exact ⟨rfl, suppress_snd_lastSentAt _ _ _ _, fun k => suppress_snd_contents _ _ _ _ k⟩

theorem st1_lastSentAt (st : DedupState) (jn : String) (rr : Bool) :
    (if rr then { st with lastTexts := (ddGetTexts st.lastTexts jn).2 } else st).lastSentAt
      = st.lastSentAt := by
  cases rr <;> simp

theorem st1_contents (st : DedupState) (jn : String) (rr : Bool) (k : String) :
    histContents (if rr then { st with lastTexts := (ddGetTexts st.lastTexts jn).2 } else st) k
      = histContents st k := by
  cases rr
  · simp
  · simp only [if_true, ite_true]
    simp [histContents, ddGetTexts_contents]

theorem daily_step_marker_hit (jn mb : String) (rr : Bool) (st : DedupState) (today : String)
    (now : Int) (gen : Option String) (ok : Bool)
    (h : (alistGet st.lastSentAt (mb ++ today)).isSome = true) :
    daily_job_step jn mb rr st today now gen ok = (st, false) := by
  unfold daily_job_step
  simp [h]

theorem daily_step_none (jn mb : String) (rr : Bool) (st : DedupState) (today : String)
    (now : Int) (ok : Bool) (h : ¬ (alistGet st.lastSentAt (mb ++ today)).isSome = true) :
    daily_job_step jn mb rr st today now none ok
      = ((if rr then { st with lastTexts := (ddGetTexts st.lastTexts jn).2 } else st), false) := by
  unfold daily_job_step
  simp [h]

theorem daily_step_some (jn mb : String) (rr : Bool) (st : DedupState) (today : String)
    (now : Int) (text : String) (ok : Bool)
    (h : ¬ (alistGet st.lastSentAt (mb ++ today)).isSome = true) :
    daily_job_step jn mb rr st today now (some text) ok
      = daily_job_send_phase jn (mb ++ today)
          (if rr then { st with lastTexts := (ddGetTexts st.lastTexts jn).2 } else st)
          now text ok := by
  unfold daily_job_step
  simp [h]

/-! ### Lemmas about setup_jobs -/

theorem setup_jobs_installed (mgr : JobManager) (queue : JobQueue) (dedup : DedupState)
    (now : Int) (h : mgr.jobs_setup = true) :
    setup_jobs mgr queue dedup now = (mgr, queue, dedup) := by
  unfold setup_jobs
  simp [h]

theorem setup_jobs_fresh_flag (mgr : JobManager) (queue : JobQueue) (dedup : DedupState)
    (now : Int) (h : mgr.jobs_setup = false) :
    (setup_jobs mgr queue dedup now).1.jobs_setup = true := by
  unfold setup_jobs
  simp [h]

theorem setup_jobs_fresh_queue (mgr : JobManager) (queue : JobQueue) (dedup : DedupState)
    (now : Int) (h : mgr.jobs_setup = false) :
    (setup_jobs mgr queue dedup now).2.1.jobs
      = queue.jobs.filter (fun j => decide (j.callback ∉ samuil_callbacks))
        ++ [⟨"good_morning_job", "samuil_good_morning_" ++ toString now⟩,
            ⟨"today_events_job", "samuil_today_events_" ++ toString now⟩,
            ⟨"evening_summary_job", "samuil_evening_summary_" ++ toString now⟩] := by
  unfold setup_jobs
  simp [h]

/-! ### Claim theorems -/

/-- C1, counterexample: the claim fails as stated because the empty-candidate
check precedes the cooldown check.  After recordSend("good_morning_job", 0,
"hi"), with 0 < 100 and 100 - 0 < 600 (inside the cooldown), shouldSuppress
at time 100 of the empty candidate "" returns false, not true. -/
theorem cooldown_dominance_empty_cex :
    (0 : Int) < 100 ∧ (100 : Int) - 0 < 600 ∧
    (_should_dedupe_scheduled_send
      (_record_scheduled_send dedupInit "good_morning_job" 0 "hi")
      "good_morning_job" 100 "").1 = false :=
  ⟨by decide, by decide, by decide⟩

/-- C1, amended: for every state, job name J, timestamps T1 < T2 with
T2 - T1 below the 600-second cooldown, and every candidate Y whose
normalization is nonempty, after recordSend(J, T1, X) the check
shouldSuppress(J, T2, Y) returns true regardless of the content of Y. -/
theorem cooldown_dominates_nonempty_candidates (st : DedupState) (J : String)
    (T1 T2 : Int) (X Y : String) (h12 : T1 < T2) (hlt : T2 - T1 < 600)
    (hY : _normalize_text_for_dedupe Y ≠ "") :
    (_should_dedupe_scheduled_send (_record_scheduled_send st J T1 X) J T2 Y).1 = true := by
  apply suppress_fst_of_cooldown _ _ _ _ hY
  apply cooldown_hit_of_lookup _ _ _ T1
  · rw [record_lastSentAt, alistGet_alistSet_self]
  · omega

/-- C1, witness for the amended theorem at a concrete input. -/
theorem cooldown_dominates_nonempty_candidates_witness :
    (0 : Int) < 100 ∧ (100 : Int) - 0 < 600 ∧
    _normalize_text_for_dedupe "Good evening" ≠ "" ∧
    (_should_dedupe_scheduled_send
      (_record_scheduled_send dedupInit "good_morning_job" 0 "hi")
      "good_morning_job" 100 "Good evening").1 = true :=
  ⟨by decide, by decide, by decide,
   cooldown_dominates_nonempty_candidates dedupInit "good_morning_job" 0 100 "hi"
     "Good evening" (by decide) (by decide) (by decide)⟩

/-- C2, counterexample: a text whose normalization is empty (a single space)
can be recorded, yet re-submitting the very same text beyond the cooldown
window is not suppressed, because the empty-candidate check fires first. -/
theorem duplicate_text_empty_cex :
    (600 : Int) ≤ (1000 : Int) - 0 ∧
    (_should_dedupe_scheduled_send
      (_record_scheduled_send dedupInit "good_morning_job" 0 " ")
      "good_morning_job" 1000 " ").1 = false :=
  ⟨by decide, by decide⟩

/-- C2, amended: for X with nonempty normalization, after recordSend(J, T, X)
the check shouldSuppress(J, T2, X) returns true at every later (indeed every)
time T2, in particular beyond the cooldown window; consequently any candidate
Y accepted next (shouldSuppress false) has a normalization different from
X's, so two consecutive accepted messages are never textually identical
after normalization. -/
theorem duplicate_text_suppressed_after_record (st : DedupState) (J : String)
    (T T2 : Int) (X : String) (hX : _normalize_text_for_dedupe X ≠ "") :
    (_should_dedupe_scheduled_send (_record_scheduled_send st J T X) J T2 X).1 = true ∧
    ∀ Y, (_should_dedupe_scheduled_send (_record_scheduled_send st J T X) J T2 Y).1 = false →
      _normalize_text_for_dedupe Y ≠ _normalize_text_for_dedupe X := by
  have hmem : X ∈ histContents (_record_scheduled_send st J T X) J := by
    rw [record_histContents_self]
    exact self_mem_dequeAppend _ _
  constructor
  · exact suppress_fst_of_exact _ _ _ _ _ hX hmem rfl
  · intro Y hfalse heq
    have hYne : _normalize_text_for_dedupe Y ≠ "" := by rw [heq]; exact hX
    have htrue := suppress_fst_of_exact (_record_scheduled_send st J T X) J T2 Y X hYne hmem heq
    rw [hfalse] at htrue
    exact absurd htrue (by decide)

/-- C2, witness for the amended theorem at a concrete input, with the
re-check 1000 seconds later (beyond the 600-second cooldown). -/
theorem duplicate_text_suppressed_after_record_witness :
    _normalize_text_for_dedupe "hi  THERE " ≠ "" ∧
    (_should_dedupe_scheduled_send
      (_record_scheduled_send dedupInit "good_morning_job" 0 "hi  THERE ")
      "good_morning_job" 1000 "hi  THERE ").1 = true :=
  ⟨by decide,
   (duplicate_text_suppressed_after_record dedupInit "good_morning_job" 0 1000
     "hi  THERE " (by decide)).1⟩

/-- C3: a candidate whose normalization (strip, collapse whitespace,
lowercase) is the empty string is never suppressed, in any deduplicator
state; in particular shouldSuppress(J, T, "") and shouldSuppress(J, T, "   ")
are false. -/
theorem empty_candidate_never_suppressed (st : DedupState) (J : String) (T : Int)
    (Y : String) (h : _normalize_text_for_dedupe Y = "") :
    (_should_dedupe_scheduled_send st J T Y).1 = false := by
  unfold _should_dedupe_scheduled_send
  simp [h]

/-- C3, witness: the two candidates of the claim, checked in a state still
inside the cooldown window of a recorded send. -/
theorem empty_candidate_never_suppressed_witness :
    _normalize_text_for_dedupe "" = "" ∧ _normalize_text_for_dedupe "   " = "" ∧
    (_should_dedupe_scheduled_send
      (_record_scheduled_send dedupInit "good_morning_job" 0 "hi")
      "good_morning_job" 1 "").1 = false ∧
    (_should_dedupe_scheduled_send
      (_record_scheduled_send dedupInit "good_morning_job" 0 "hi")
      "good_morning_job" 1 "   ").1 = false :=
  ⟨rfl, rfl,
   empty_candidate_never_suppressed
     (_record_scheduled_send dedupInit "good_morning_job" 0 "hi") "good_morning_job" 1 "" rfl,
   empty_candidate_never_suppressed
     (_record_scheduled_send dedupInit "good_morning_job" 0 "hi") "good_morning_job" 1 "   " rfl⟩

/-- C10: the cooldown check compares the absolute value of the time
difference, so a nonempty-normalizing candidate is suppressed whenever
the recorded last-send timestamp is within 600 seconds of `now` in either
direction — including when `now` is strictly earlier than it. -/
theorem cooldown_uses_absolute_difference (st : DedupState) (J : String)
    (now last : Int) (text : String)
    (hne : _normalize_text_for_dedupe text ≠ "")
    (hlast : alistGet st.lastSentAt J = some last)
    (habs : (now - last).natAbs < 600) :
    (_should_dedupe_scheduled_send st J now text).1 = true :=
  suppress_fst_of_cooldown st J now text hne (cooldown_hit_of_lookup st J now last hlast habs)

/-- C10, witness: the wall clock has stepped backwards (now = 500 is
earlier than the recorded last send at 1000), and the candidate is still
suppressed. -/
theorem cooldown_uses_absolute_difference_witness :
    (500 : Int) < 1000 ∧ ((500 : Int) - 1000).natAbs < 600 ∧
    (_should_dedupe_scheduled_send
      (⟨[("good_morning_job", 1000)], []⟩ : DedupState)
      "good_morning_job" 500 "hello friend").1 = true :=
  ⟨by decide, by decide,
   cooldown_uses_absolute_difference
     (⟨[("good_morning_job", 1000)], []⟩ : DedupState)
     "good_morning_job" 500 1000 "hello friend" (by decide) (by decide) (by decide)⟩

/-- Helper for C4: outside the exact-match case, a history entry fires the
dedupe loop exactly when both normalized texts exceed 20 characters and the
deduplicated word-set overlap exceeds 0.8 (encoded 4 * max < 5 * common). -/
theorem entry_hit_eq_sim (norm prev : String)
    (hne : norm ≠ _normalize_text_for_dedupe prev) :
    (_dedupe_entry_hit norm prev = true ↔
      (20 < norm.length ∧ 20 < (_normalize_text_for_dedupe prev).length ∧
       4 * max ((pySplit norm).dedup.length)
               ((pySplit (_normalize_text_for_dedupe prev)).dedup.length)
         < 5 * (((pySplit norm).dedup.filter
                  (fun w => decide (w ∈ (pySplit (_normalize_text_for_dedupe prev)).dedup))).length))) := by
  simp only [_dedupe_entry_hit]
  rw [if_neg hne]
  by_cases hl : 20 < norm.length ∧ 20 < (_normalize_text_for_dedupe prev).length
  · rw [if_pos hl]
    simp only [decide_eq_true_eq]
    constructor
    · intro h
      exact ⟨hl.1, hl.2, h⟩
    · intro h
      exact h.2.2
  · rw [if_neg hl]
    constructor
    · intro h
      exact absurd h (by decide)
    · intro h
      exact absurd ⟨h.1, h.2.1⟩ hl

/-- C4: for a candidate with nonempty normalization, outside the cooldown
window, with no exact normalized match in the job's history, shouldSuppress
returns true if and only if some history entry has both normalized lengths
above 20 characters and word-set overlap `common / max` above 0.8
(encoded exactly as 4 * max < 5 * common). -/
theorem similarity_rule_iff (st : DedupState) (J : String) (now : Int) (text : String)
    (hne : _normalize_text_for_dedupe text ≠ "")
    (hcool : _dedupe_cooldown_hit st J now = false)
    (hex : ∀ prev ∈ histContents st J,
      _normalize_text_for_dedupe text ≠ _normalize_text_for_dedupe prev) :
    ((_should_dedupe_scheduled_send st J now text).1 = true ↔
      ∃ prev ∈ histContents st J,
        20 < (_normalize_text_for_dedupe text).length ∧
        20 < (_normalize_text_for_dedupe prev).length ∧
        4 * max ((pySplit (_normalize_text_for_dedupe text)).dedup.length)
                ((pySplit (_normalize_text_for_dedupe prev)).dedup.length)
          < 5 * (((pySplit (_normalize_text_for_dedupe text)).dedup.filter
                   (fun w => decide (w ∈ (pySplit (_normalize_text_for_dedupe prev)).dedup))).length)) := by
  have hred : (_should_dedupe_scheduled_send st J now text).1
      = (histContents st J).any
          (fun prev => _dedupe_entry_hit (_normalize_text_for_dedupe text) prev) := by
    unfold _should_dedupe_scheduled_send
    simp [hne, hcool, ddGetTexts_fst, histContents]
  rw [hred, List.any_eq_true]
  constructor
  · rintro ⟨prev, hmem, hhit⟩
    exact ⟨prev, hmem, (entry_hit_eq_sim _ _ (hex prev hmem)).mp hhit⟩
  · rintro ⟨prev, hmem, hsim⟩
    exact ⟨prev, hmem, (entry_hit_eq_sim _ _ (hex prev hmem)).mpr hsim⟩

/-- C4, witness: history holds "alpha beta gamma delta epsilon" (29 chars
normalized); the candidate "epsilon delta gamma beta alpha" has the same
word set in a different order (overlap 5/5 > 0.8, both texts above 20
chars, not an exact match), and is suppressed. -/
theorem similarity_rule_iff_witness :
    _normalize_text_for_dedupe "epsilon delta gamma beta alpha" ≠ "" ∧
    _dedupe_cooldown_hit
      (⟨[], [("good_morning_job", ["alpha beta gamma delta epsilon"])]⟩ : DedupState)
      "good_morning_job" 0 = false ∧
    (∀ prev ∈ histContents
        (⟨[], [("good_morning_job", ["alpha beta gamma delta epsilon"])]⟩ : DedupState)
        "good_morning_job",
      _normalize_text_for_dedupe "epsilon delta gamma beta alpha"
        ≠ _normalize_text_for_dedupe prev) ∧
    (_should_dedupe_scheduled_send
      (⟨[], [("good_morning_job", ["alpha beta gamma delta epsilon"])]⟩ : DedupState)
      "good_morning_job" 0 "epsilon delta gamma beta alpha").1 = true := by
  refine ⟨by decide, by decide, by decide, ?_⟩
  exact (similarity_rule_iff
    (⟨[], [("good_morning_job", ["alpha beta gamma delta epsilon"])]⟩ : DedupState)
    "good_morning_job" 0 "epsilon delta gamma beta alpha"
    (by decide) (by decide) (by decide)).mpr (by decide)

/-- C5, counterexample: shouldSuppress is not a pure read.  Querying a job
name absent from the history table inserts that key (with an empty deque),
because the loop header reads a `defaultdict`: from the initial state, the
key "good_morning_job" is present afterwards though it was absent before. -/
theorem shouldSuppress_state_change_cex :
    alistGet ((_should_dedupe_scheduled_send dedupInit "good_morning_job" 0 "hello").2).lastTexts
      "good_morning_job" = some [] ∧
    alistGet dedupInit.lastTexts "good_morning_job" = none :=
  ⟨by decide, by decide⟩

/-- C5, amended: shouldSuppress never changes the last-sent-timestamp table
and never changes any job's history contents; its only possible state change
is inserting the queried job name into the history table with an empty
history when that key was absent. -/
theorem shouldSuppress_frame_conditions (st : DedupState) (J : String) (now : Int)
    (text : String) :
    (_should_dedupe_scheduled_send st J now text).2.lastSentAt = st.lastSentAt ∧
    (∀ k, histContents (_should_dedupe_scheduled_send st J now text).2 k = histContents st k) ∧
    ((_should_dedupe_scheduled_send st J now text).2.lastTexts = st.lastTexts ∨
     (alistGet st.lastTexts J = none ∧
      (_should_dedupe_scheduled_send st J now text).2.lastTexts = alistSet st.lastTexts J [])) := by
  refine ⟨suppress_snd_lastSentAt _ _ _ _, fun k => suppress_snd_contents _ _ _ _ k, ?_⟩
  rcases suppress_snd st J now text with h | ⟨hj, h⟩
  · left
    rw [h]
  · right
    exact ⟨hj, by rw [h]⟩

/-- C6: every reachable deduplicator state stores at most 5 history entries
per job; and after six recordSend calls on the same job the first recorded
text has been evicted: the stored history is exactly the last five texts,
so an evicted text is no longer present and cannot fire the exact-match
rule. -/
theorem history_bound_and_fifo_eviction :
    (∀ ops : List DedupOp, histBounded (runOps ops)) ∧
    (∀ (st : DedupState) (J : String) (n0 n1 n2 n3 n4 n5 : Int)
       (t0 t1 t2 t3 t4 t5 : String),
      histContents (_record_scheduled_send (_record_scheduled_send (_record_scheduled_send
        (_record_scheduled_send (_record_scheduled_send (_record_scheduled_send st J n0 t0)
          J n1 t1) J n2 t2) J n3 t3) J n4 t4) J n5 t5) J = [t1, t2, t3, t4, t5] ∧
      (t0 ∉ [t1, t2, t3, t4, t5] →
        t0 ∉ histContents (_record_scheduled_send (_record_scheduled_send
          (_record_scheduled_send (_record_scheduled_send (_record_scheduled_send
            (_record_scheduled_send st J n0 t0) J n1 t1) J n2 t2) J n3 t3) J n4 t4)
          J n5 t5) J)) := by
  constructor
  · exact runOps_bounded
  · intro st J n0 n1 n2 n3 n4 n5 t0 t1 t2 t3 t4 t5
    have hh : histContents (_record_scheduled_send (_record_scheduled_send
        (_record_scheduled_send (_record_scheduled_send (_record_scheduled_send
          (_record_scheduled_send st J n0 t0) J n1 t1) J n2 t2) J n3 t3) J n4 t4)
        J n5 t5) J = [t1, t2, t3, t4, t5] := by
      rw [record_histContents_self, record_histContents_self, record_histContents_self,
          record_histContents_self, record_histContents_self, record_histContents_self]
      exact dequeAppend_six _ _ _ _ _ _ _
    refine ⟨hh, fun hnot => ?_⟩
    rw [hh]
    exact hnot

/-- C6, witness: six records of "a" .. "f" from the initial state leave
exactly ["b", "c", "d", "e", "f"]; the evicted first text "a" is gone. -/
theorem history_bound_and_fifo_eviction_witness :
    ("a" ∉ (["b", "c", "d", "e", "f"] : List String)) ∧
    histContents (_record_scheduled_send (_record_scheduled_send (_record_scheduled_send
      (_record_scheduled_send (_record_scheduled_send (_record_scheduled_send dedupInit
        "good_morning_job" 0 "a") "good_morning_job" 1000 "b") "good_morning_job" 2000 "c")
      "good_morning_job" 3000 "d") "good_morning_job" 4000 "e") "good_morning_job" 5000 "f")
      "good_morning_job" = ["b", "c", "d", "e", "f"] ∧
    "a" ∉ histContents (_record_scheduled_send (_record_scheduled_send (_record_scheduled_send
      (_record_scheduled_send (_record_scheduled_send (_record_scheduled_send dedupInit
        "good_morning_job" 0 "a") "good_morning_job" 1000 "b") "good_morning_job" 2000 "c")
      "good_morning_job" 3000 "d") "good_morning_job" 4000 "e") "good_morning_job" 5000 "f")
      "good_morning_job" := by
  refine ⟨by decide, ?_, ?_⟩
  · exact (history_bound_and_fifo_eviction.2 dedupInit "good_morning_job"
      0 1000 2000 3000 4000 5000 "a" "b" "c" "d" "e" "f").1
  · exact (history_bound_and_fifo_eviction.2 dedupInit "good_morning_job"
      0 1000 2000 3000 4000 5000 "a" "b" "c" "d" "e" "f").2 (by decide)

/-- C7: daily-marker once-per-day for the daily job shape.  (1) once the
marker for date D is a key of the timestamp table, a firing on D returns
the state unchanged and sends nothing; (2) a present marker stays present
across any firing; (3) a firing that sends on date D sets D's marker;
(4) a firing on date D never sets the marker of a different date D3
(whose marker key is distinct from the job-name key). -/
theorem daily_marker_once_per_day (jn mb : String) (rr : Bool) (st : DedupState)
    (D : String) (now : Int) (gen : Option String) (ok : Bool) :
    ((alistGet st.lastSentAt (mb ++ D)).isSome = true →
       daily_job_step jn mb rr st D now gen ok = (st, false)) ∧
    (∀ D0, (alistGet st.lastSentAt (mb ++ D0)).isSome = true →
       (alistGet (daily_job_step jn mb rr st D now gen ok).1.lastSentAt (mb ++ D0)).isSome
         = true) ∧
    ((daily_job_step jn mb rr st D now gen ok).2 = true →
       (alistGet (daily_job_step jn mb rr st D now gen ok).1.lastSentAt (mb ++ D)).isSome
         = true) ∧
    (∀ D3, D3 ≠ D → mb ++ D3 ≠ jn → alistGet st.lastSentAt (mb ++ D3) = none →
       alistGet (daily_job_step jn mb rr st D now gen ok).1.lastSentAt (mb ++ D3) = none) := by
  have master :
      ((daily_job_step jn mb rr st D now gen ok).1.lastSentAt = st.lastSentAt ∧
       (daily_job_step jn mb rr st D now gen ok).2 = false) ∨
      ((daily_job_step jn mb rr st D now gen ok).1.lastSentAt
         = alistSet (alistSet st.lastSentAt jn now) (mb ++ D) now ∧
       (daily_job_step jn mb rr st D now gen ok).2 = true) := by
    by_cases hm : (alistGet st.lastSentAt (mb ++ D)).isSome = true
    · left
      rw [daily_step_marker_hit _ _ _ _ _ _ _ _ hm]
      exact ⟨rfl, rfl⟩
    · cases gen with
      | none =>
        left
        rw [daily_step_none _ _ _ _ _ _ _ hm]
        exact ⟨st1_lastSentAt st jn rr, rfl⟩
      | some text =>
        rw [daily_step_some _ _ _ _ _ _ _ _ hm]
        rcases send_phase_lastSentAt jn (mb ++ D)
            (if rr then { st with lastTexts := (ddGetTexts st.lastTexts jn).2 } else st)
            now text ok with ⟨h1, h2⟩ | ⟨h1, h2⟩
        · left
          rw [st1_lastSentAt st jn rr] at h1
          exact ⟨h1, h2⟩
        · right
          rw [st1_lastSentAt st jn rr] at h1
          exact ⟨h1, h2⟩
  refine ⟨fun h => daily_step_marker_hit _ _ _ _ _ _ _ _ h, ?_, ?_, ?_⟩
  · intro D0 h0
    rcases master with ⟨h1, _⟩ | ⟨h1, _⟩
    · rw [h1]
      exact h0
    · rw [h1]
      exact alistGet_alistSet_isSome _ _ _ _ (alistGet_alistSet_isSome _ _ _ _ h0)
  · intro hsent
    rcases master with ⟨h1, h2⟩ | ⟨h1, h2⟩
    · rw [h2] at hsent
      exact absurd hsent (by decide)
    · rw [h1, alistGet_alistSet_self]
      rfl
  · intro D3 hD3 hjn habs
    rcases master with ⟨h1, _⟩ | ⟨h1, _⟩
    · rw [h1]
      exact habs
    · rw [h1]
      have hne1 : mb ++ D ≠ mb ++ D3 := fun he => hD3 (string_append_left_cancel he).symm
      rw [alistGet_alistSet_ne _ _ _ _ hne1, alistGet_alistSet_ne _ _ _ _ (Ne.symm hjn)]
      exact habs

/-- C7, witness: the evening-summary job with the marker already set for
2024-05-01 fires again on that date and returns without sending; and a
send on 2024-05-01 from the fresh state does not set the 2024-05-02
marker. -/
theorem daily_marker_once_per_day_witness :
    (alistGet (⟨[("evening_summary_sent_2024-05-01", 0)], []⟩ : DedupState).lastSentAt
      ("evening_summary_sent_" ++ "2024-05-01")).isSome = true ∧
    daily_job_step "evening_summary_job" "evening_summary_sent_" true
      (⟨[("evening_summary_sent_2024-05-01", 0)], []⟩ : DedupState) "2024-05-01" 5
      (some "good night my dear friend") true
      = ((⟨[("evening_summary_sent_2024-05-01", 0)], []⟩ : DedupState), false) ∧
    alistGet (daily_job_step "evening_summary_job" "evening_summary_sent_" true dedupInit
        "2024-05-01" 5 (some "good night my dear friend") true).1.lastSentAt
      ("evening_summary_sent_" ++ "2024-05-02") = none := by
  refine ⟨by decide, ?_, ?_⟩
  · exact (daily_marker_once_per_day "evening_summary_job" "evening_summary_sent_" true
      (⟨[("evening_summary_sent_2024-05-01", 0)], []⟩ : DedupState) "2024-05-01" 5
      (some "good night my dear friend") true).1 (by decide)
  · exact (daily_marker_once_per_day "evening_summary_job" "evening_summary_sent_" true
      dedupInit "2024-05-01" 5 (some "good night my dear friend") true).2.2.2
      "2024-05-02" (by decide) (by decide) (by decide)

/-- C8: from a registrar whose flag is unset, setup_jobs leaves exactly one
active timer per bot callback in the queue, and every further call to
setup_jobs on the resulting state is a no-op returning the registrar, the
queue and the dedupe state unchanged. -/
theorem setup_jobs_idempotent_single_timer (mgr : JobManager) (queue : JobQueue)
    (dedup : DedupState) (now : Int) (hm : mgr.jobs_setup = false) :
    (∀ c ∈ samuil_callbacks,
      ((setup_jobs mgr queue dedup now).2.1.jobs.filter
        (fun j => decide (j.callback = c))).length = 1) ∧
    (∀ now2, setup_jobs (setup_jobs mgr queue dedup now).1
        (setup_jobs mgr queue dedup now).2.1 (setup_jobs mgr queue dedup now).2.2 now2
      = setup_jobs mgr queue dedup now) := by
  constructor
  · intro c hc
    rw [setup_jobs_fresh_queue mgr queue dedup now hm, List.filter_append]
    have hrem : (queue.jobs.filter (fun j => decide (j.callback ∉ samuil_callbacks))).filter
        (fun j => decide (j.callback = c)) = [] := by
      apply List.filter_eq_nil_iff.mpr
      intro j hj
      have hnot : j.callback ∉ samuil_callbacks :=
        of_decide_eq_true (List.mem_filter.mp hj).2
      intro hceq
      apply hnot
      rw [of_decide_eq_true hceq]
      exact hc
    rw [hrem, List.nil_append]
    have hc2 : c = "good_morning_job" ∨ c = "evening_summary_job" ∨ c = "today_events_job" := by
      simpa [samuil_callbacks] using hc
    rcases hc2 with rfl | rfl | rfl <;> simp [List.filter]
  · intro now2
    rw [setup_jobs_installed _ _ _ _ (setup_jobs_fresh_flag mgr queue dedup now hm)]

/-- C8, witness: from the initial registrar and a queue holding a stale
good-morning timer, setup leaves exactly one good-morning timer, and a
second setup call at a later time changes nothing. -/
theorem setup_jobs_idempotent_single_timer_witness :
    jobManagerInit.jobs_setup = false ∧
    ((setup_jobs jobManagerInit ⟨[⟨"good_morning_job", "stale"⟩]⟩ dedupInit 0).2.1.jobs.filter
      (fun j => decide (j.callback = "good_morning_job"))).length = 1 ∧
    setup_jobs (setup_jobs jobManagerInit ⟨[⟨"good_morning_job", "stale"⟩]⟩ dedupInit 0).1
      (setup_jobs jobManagerInit ⟨[⟨"good_morning_job", "stale"⟩]⟩ dedupInit 0).2.1
      (setup_jobs jobManagerInit ⟨[⟨"good_morning_job", "stale"⟩]⟩ dedupInit 0).2.2 999
      = setup_jobs jobManagerInit ⟨[⟨"good_morning_job", "stale"⟩]⟩ dedupInit 0 := by
  refine ⟨rfl, ?_, ?_⟩
  · exact (setup_jobs_idempotent_single_timer jobManagerInit
      ⟨[⟨"good_morning_job", "stale"⟩]⟩ dedupInit 0 rfl).1 "good_morning_job" (by decide)
  · exact (setup_jobs_idempotent_single_timer jobManagerInit
      ⟨[⟨"good_morning_job", "stale"⟩]⟩ dedupInit 0 rfl).2 999

/-- C9, counterexample: when the transport send throws, the deduplicator
state is not always exactly what it was before the invocation: the dedupe
check's defaultdict read has inserted the job key into the history table
(with an empty deque). -/
theorem transport_failure_state_change_cex :
    (today_events_job_step dedupInit "2024-05-01" 0
      (some "hello there my good friend") false).1 ≠ dedupInit ∧
    alistGet (today_events_job_step dedupInit "2024-05-01" 0
      (some "hello there my good friend") false).1.lastTexts "today_events_job" = some [] ∧
    alistGet dedupInit.lastTexts "today_events_job" = none :=
  ⟨by decide, by decide, by decide⟩

/-- C9, amended: if the transport send throws (sendOk = false), the job
callback sends nothing, recordSend has not run and no daily marker was set:
the last-sent-timestamp table is exactly unchanged and every job's history
contents are unchanged (so the next tick is free to retry); the only
possible state change is the benign insertion of an empty-history key. -/
theorem transport_failure_keeps_dedupe_state (jn mb : String) (rr : Bool)
    (st : DedupState) (today : String) (now : Int) (gen : Option String) :
    (daily_job_step jn mb rr st today now gen false).2 = false ∧
    (daily_job_step jn mb rr st today now gen false).1.lastSentAt = st.lastSentAt ∧
    ∀ k, histContents (daily_job_step jn mb rr st today now gen false).1 k
      = histContents st k := by
  by_cases hm : (alistGet st.lastSentAt (mb ++ today)).isSome = true
  · rw [daily_step_marker_hit _ _ _ _ _ _ _ _ hm]
    exact ⟨rfl, rfl, fun k => rfl⟩
  · cases gen with
    | none =>
      rw [daily_step_none _ _ _ _ _ _ _ hm]
      exact ⟨rfl, st1_lastSentAt st jn rr, fun k => st1_contents st jn rr k⟩
    | some text =>
      rw [daily_step_some _ _ _ _ _ _ _ _ hm]
      obtain ⟨hA, hB, hC⟩ := send_phase_fail jn (mb ++ today)
        (if rr then { st with lastTexts := (ddGetTexts st.lastTexts jn).2 } else st) now text
      refine ⟨hA, ?_, fun k => ?_⟩
      · rw [hB, st1_lastSentAt]
      · rw [hC k, st1_contents]
